import Mathlib

/-!
Shallow embedding of the scroll-driven Google-Maps listing scraper
(src/scraper.py, the basic variant, and src/scrapern.py, the enhanced
variant).  Pure record construction, per-keyword accumulation, field
extraction fallbacks, review-count parsing, service-flag scanning, the
scroll/settle loop, href deduplication, per-listing control flow and the
batch loop are translated into executable Lean definitions; the Playwright
page is abstracted into outcome values (matched text, no match, raised
exception) exactly at the points where the Python code reads it.
-/

/-- The `Place` dataclass of src/scrapern.py (its field set is a superset of
the `Place` dataclass of src/scraper.py; the basic variant uses only the
shared fields).  Python strings become `String`, `Optional[int]` becomes
`Option Nat` (the parsed values are non-negative), and the `Optional[float]`
rating is carried as the normalized decimal text since no arithmetic is ever
performed on it. -/
structure Place where
  name : String := ""
  address : String := ""
  website : String := ""
  phone_number : String := ""
  google_maps_url : String := ""
  place_id : String := ""
  reviews_count : Option Nat := none
  reviews_average : Option String := none
  price_range : String := ""
  store_shopping : String := "No"
  in_store_pickup : String := "No"
  store_delivery : String := "No"
  dine_in : String := "No"
  takeaway : String := "No"
  reservations : String := "No"
  wheelchair_accessible : String := "Unknown"
  place_type : String := ""
  opens_at : String := ""
  full_hours : String := ""
  popular_times : String := ""
  introduction : String := ""
  services_offered : String := ""
  amenities : String := ""
  photos_count : Option Nat := none
  verified_business : String := "Unknown"
  years_in_business : String := ""
  owner_info : String := ""
  coordinates : String := ""
  search_keyword : String := ""
  category : String := ""
  scraped_at : String := ""
deriving DecidableEq

/-- Python `str.strip()`: drop leading and trailing whitespace.  Implemented
structurally over the character list so that it evaluates inside the
kernel. -/
def pyStrip (s : String) : String :=
  ⟨((s.data.dropWhile Char.isWhitespace).reverse.dropWhile Char.isWhitespace).reverse⟩

/-- Python `str.lower()` (the scraped texts are ASCII, where Python's and
Lean's per-character lowercasing agree).  Implemented structurally over the
character list so that it evaluates inside the kernel. -/
def pyLower (s : String) : String :=
  ⟨s.data.map Char.toLower⟩

/-- Python truthiness test `if place.name:` guarding acceptance in
src/scraper.py (line 368): only a non-empty name makes a record useful. -/
def usefulB (p : Place) : Bool :=
  p.name != ""

/-- Python truthiness test `if place.name or place.address or
place.phone_number:` guarding acceptance in src/scrapern.py (line 514). -/
def usefulE (p : Place) : Bool :=
  p.name != "" || p.address != "" || p.phone_number != ""

/-- Dedup key of src/scraper.py (line 370):
`f"{place.name.lower().strip()}|{place.address.lower().strip()}"`. -/
def dedupKeyB (p : Place) : String :=
  pyStrip (pyLower p.name) ++ "|" ++ pyStrip (pyLower p.address)

/-- Dedup key of src/scrapern.py (line 516): the basic key extended with
`place.phone_number.strip()`. -/
def dedupKeyE (p : Place) : String :=
  pyStrip (pyLower p.name) ++ "|" ++ pyStrip (pyLower p.address) ++ "|" ++ pyStrip p.phone_number

/-- The keyword-level accumulator state: the `places` list together with the
`seen_places` membership set (modelled as a list of keys). -/
structure Accum where
  places : List Place
  seen : List String
deriving DecidableEq

/-- Initial accumulator: `places = []`, `seen_places = set()`. -/
def initAccum : Accum := ⟨[], []⟩

/-- One acceptance step of `scrape_single_keyword`, parameterized by the
variant's usefulness test and dedup key: if the record passes the usefulness
test and its key is not in `seen_places`, append the record and remember the
key; otherwise leave the state unchanged. -/
def acceptPlace (useful : Place → Bool) (key : Place → String)
    (st : Accum) (p : Place) : Accum :=
  if useful p then
    if key p ∈ st.seen then st
    else ⟨st.places ++ [p], st.seen ++ [key p]⟩
  else st

/-- Acceptance step of src/scraper.py (lines 368-381). -/
def acceptB : Accum → Place → Accum :=
  acceptPlace usefulB dedupKeyB

/-- Acceptance step of src/scrapern.py (lines 514-527). -/
def acceptE : Accum → Place → Accum :=
  acceptPlace usefulE dedupKeyE

/-- Keyword-level accumulation of the basic variant over the sequence of
built records, in listing order. -/
def accumulateB (recs : List Place) : Accum :=
  recs.foldl acceptB initAccum

/-- Keyword-level accumulation of the enhanced variant over the sequence of
built records, in listing order. -/
def accumulateE (recs : List Place) : Accum :=
  recs.foldl acceptE initAccum

/-- A concrete built record with empty name, empty address and a non-empty
phone number, as produced when only the phone locators match. -/
def phoneOnlyPlace : Place := { phone_number := "0483 270000" }

/-- A concrete built record with a name, used to instantiate per-listing
control flow. -/
def samplePlace : Place := { name := "Sample Bakery" }

/-- Outcome of probing one candidate XPath on the rendered page:
the capability call raised, the locator matched nothing
(`count() == 0`), or it matched and the first element's `inner_text()`
returned the given string. -/
inductive LocatorOutcome where
  | raises : LocatorOutcome
  | noMatch : LocatorOutcome
  | matches (firstText : String) : LocatorOutcome
deriving DecidableEq

/-- What one loop iteration of `extract_text_multiple` yields for one
candidate: the trimmed text when the locator matched and the trimmed text is
non-empty, otherwise nothing (raise, no match, and empty-after-trim all fall
through to the next candidate). -/
def candText : LocatorOutcome → Option String
  | .raises => none
  | .noMatch => none
  | .matches t => if pyStrip t = "" then none else some (pyStrip t)

/-- `extract_text_multiple` of src/scraper.py (lines 125-136) and
src/scrapern.py (lines 173-184): try the candidates in order, return the
first non-empty trimmed text, and `""` when every candidate falls through. -/
def extract_text_multiple : List LocatorOutcome → String
  | [] => ""
  | c :: rest =>
    match candText c with
    | some s => s
    | none => extract_text_multiple rest

/-- The introduction field assignment
`place.introduction = extract_text_multiple(intro_xpaths) or "None Found"`
(src/scraper.py line 160, src/scrapern.py line 218): Python `or` replaces a
falsy (empty) extraction result with the sentinel. -/
def introductionField (cands : List LocatorOutcome) : String :=
  if extract_text_multiple cands = "" then "None Found" else extract_text_multiple cands

/-- Character class of the regex `[\d,]+`: a digit or a thousands
separator. -/
def isDigitOrComma (c : Char) : Bool :=
  c.isDigit || c == ','

/-- First match of `re.findall(r'[\d,]+', raw)`: the first maximal run of
digit/comma characters, or `none` when no such character occurs. -/
def firstDigitCommaRun : List Char → Option (List Char)
  | [] => none
  | c :: cs =>
    if isDigitOrComma c then some (c :: cs.takeWhile isDigitOrComma)
    else firstDigitCommaRun cs

/-- Value of a digit string, most significant digit first. -/
def digitsToNat (l : List Char) : Nat :=
  l.foldl (fun n c => n * 10 + (c.toNat - 48)) 0

/-- Python `int(temp)` restricted to the inputs reachable here (after
stripping commas from a digit/comma run the text is empty or digits only):
it succeeds exactly on a non-empty all-digit string and raises otherwise,
which the caller's `except` turns into leaving the field unset. -/
def parseIntStr (l : List Char) : Option Nat :=
  if l ≠ [] ∧ l.all Char.isDigit then some (digitsToNat l) else none

/-- Review-count parsing of src/scraper.py (lines 162-173) and
src/scrapern.py (lines 227-236): an empty raw text is falsy and skipped;
otherwise take the first digit/comma run, strip the commas (the
`replace('\xa0','')` is a no-op because `\xa0` never occurs in a `[\d,]+`
match) and parse it as an integer; any failure leaves the field `none`. -/
def reviewsCountFrom (raw : String) : Option Nat :=
  if raw = "" then none
  else
    match firstDigitCommaRun raw.data with
    | none => none
    | some run => parseIntStr (run.filter (fun c => c != ','))

/-- Python substring test `sub in s` over character lists. -/
def isSubstrList (sub : List Char) : List Char → Bool
  | [] => sub.isEmpty
  | c :: rest => sub.isPrefixOf (c :: rest) || isSubstrList sub rest

/-- Python `any(w in check for w in words)`. -/
def containsAnyWord (check : String) (words : List String) : Bool :=
  words.any (fun w => isSubstrList w.data check.data)

/-- `get_category_from_keyword` of src/scraper.py (lines 61-75) and
src/scrapern.py (lines 78-91): pure substring lookup from keyword to
category tag. -/
def get_category_from_keyword (keyword : String) : String :=
  let kl := pyLower keyword
  if ["bakery", "hotel", "restaurant", "tea shop", "snacks shop"].any (fun w => isSubstrList w.data kl.data) then "Food_Businesses"
  else if ["catering", "event management"].any (fun w => isSubstrList w.data kl.data) then "Event_Catering"
  else if ["wholesale", "frozen food"].any (fun w => isSubstrList w.data kl.data) then "Wholesale_Frozen"
  else if ["biryani", "fast food"].any (fun w => isSubstrList w.data kl.data) then "Specialty_Food"
  else if ["canteen", "mess"].any (fun w => isSubstrList w.data kl.data) then "Large_Scale_Buyers"
  else "Other"

/-- Python `s.split(sep)` for a one-character separator, over character
lists (the snippet separator is the middot glyph; src/scrapern.py stores its
bytes in a different text encoding but splits on the same glyph). -/
def splitOnChar (sep : Char) : List Char → List (List Char)
  | [] => [[]]
  | c :: cs =>
    let r := splitOnChar sep cs
    if c == sep then [] :: r
    else
      match r with
      | [] => [[c]]
      | h :: t => (c :: h) :: t

/-- Normalization `parts[1].replace("\n", "").lower()` applied to the tail
segment of a service snippet (replacing the one-character pattern by the
empty string is a character filter). -/
def normalizeCheck (part : List Char) : String :=
  pyLower ⟨part.filter (fun c => c != '\x0a')⟩

/-- Writes `flag = "Yes"` exactly when the keyword test fires, as each
`if any(word in check ...): place.flag = "Yes"` line does. -/
def setYesIf (b : Bool) (s : String) : String :=
  if b then "Yes" else s

/-- The eight tri-state flag assignments of the service-flag scan in
src/scrapern.py (lines 272-289), written as one record update: every
assignment in the source targets a distinct field (the pickup keyword list
sets both `in_store_pickup` and `takeaway`), each condition reads only
`check`, and each branch writes only the literal `"Yes"`, so the sequential
`if` statements and this simultaneous update agree. -/
def updateServiceFlags (p : Place) (check : String) : Place :=
  { p with
    store_shopping := setYesIf (containsAnyWord check ["shop", "shopping", "store"]) p.store_shopping,
    in_store_pickup := setYesIf (containsAnyWord check ["pickup", "pick-up", "takeaway"]) p.in_store_pickup,
    takeaway := setYesIf (containsAnyWord check ["pickup", "pick-up", "takeaway"]) p.takeaway,
    store_delivery := setYesIf (containsAnyWord check ["delivery", "deliver"]) p.store_delivery,
    dine_in := setYesIf (containsAnyWord check ["dine-in", "dine in", "dining"]) p.dine_in,
    reservations := setYesIf (containsAnyWord check ["reservation", "reservations", "booking"]) p.reservations,
    wheelchair_accessible := setYesIf (containsAnyWord check ["wheelchair", "accessible", "accessibility"]) p.wheelchair_accessible,
    verified_business := setYesIf (containsAnyWord check ["verified", "google verified"]) p.verified_business }

/-- Processing of one info snippet by the service-flag scan
(src/scrapern.py lines 264-292): trim the inner text, require it non-empty
and containing the middot separator (equivalently: splitting on the
separator yields more than one part, exactly the two nested guards of the
source), then apply the flag updates to the normalized tail segment.  The
side collection of `services_list` entries (joined into `services_offered`
in Python set order) is not modelled; no claim depends on it. -/
def processSnippet (p : Place) (snippet : String) : Place :=
  let info := pyStrip snippet
  if info != "" then
    let parts := splitOnChar '·' info.data
    if 1 < parts.length then updateServiceFlags p (normalizeCheck (parts.getD 1 []))
    else p
  else p

/-- The whole service-flag scan of one extraction pass: the snippet texts
read from the matched elements (across the candidate XPaths, each capped at
the first 10 elements), folded in document order. -/
def serviceFlagScan (p : Place) (snippets : List String) : Place :=
  snippets.foldl processSnippet p

/-- Python guard `if max_results and found >= max_results:` — a configured
cap of `0` is falsy and never fires. -/
def capHit (cap : Option Nat) (found : Nat) : Bool :=
  match cap with
  | none => false
  | some m => decide (0 < m) && decide (m ≤ found)

/-- One unrolling of the scroll/settle `while` loop of
`scrape_single_keyword` (src/scraper.py lines 286-327, src/scrapern.py
lines 425-450).  `counts a` is the rendered result-link count observed
after the `a`-th scroll (`none` models the count raising, which breaks the
loop).  `fuel` is `max_scroll_attempts - scroll_attempts`, `prev` is
`previously_counted`, `nc` is `no_change_count`; the returned value is the
final `scroll_attempts`.  The cap test precedes the no-change test, the
no-change counter resets on growth, and the patience test fires after the
increment, exactly as in the source. -/
def scrollAux (counts : Nat → Option Nat) (cap : Option Nat) (patience : Nat) :
    Nat → Nat → Nat → Nat → Nat
  | 0, attempts, _, _ => attempts
  | fuel + 1, attempts, prev, nc =>
    let a := attempts + 1
    match counts a with
    | none => a
    | some found =>
      if capHit cap found then a
      else if found = prev then
        if patience ≤ nc + 1 then a
        else scrollAux counts cap patience fuel a found (nc + 1)
      else scrollAux counts cap patience fuel a found 0

/-- `max_scroll_attempts = 50` in both variants. -/
def max_scroll_attempts : Nat := 50

/-- `max_no_change = 5` in src/scraper.py (line 282). -/
def max_no_change_B : Nat := 5

/-- `max_no_change = 8` in src/scrapern.py (line 421). -/
def max_no_change_E : Nat := 8

/-- Total number of scroll cycles performed by the scroll/settle loop for a
given observed count sequence, starting from `previously_counted = 0`,
`no_change_count = 0`, `scroll_attempts = 0`. -/
def scrollCycles (counts : Nat → Option Nat) (cap : Option Nat) (patience : Nat) : Nat :=
  scrollAux counts cap patience max_scroll_attempts 0 0 0

/-- Python guard `if href and href not in unique_hrefs:` — `get_attribute`
returning `None` (or raising, caught by the surrounding `except`) and the
empty href are both skipped.  In src/scrapern.py a link whose parent lookup
finds no element is likewise skipped without recording its href, which is
the same net effect as an invalid href. -/
def validHref : Option String → Option String
  | none => none
  | some h => if h = "" then none else some h

/-- The valid `(href, handle)` pairs of the rendered link list, in display
order, duplicates included. -/
def collectPairs {α : Type} (links : List (Option String × α)) : List (String × α) :=
  links.filterMap (fun la => (validHref la.1).map (fun h => (h, la.2)))

/-- The `unique_hrefs` insertion-ordered dict build of
`scrape_single_keyword` (src/scraper.py lines 333-342, src/scrapern.py
lines 456-468): walk the links in display order and keep a link's handle iff
its href is valid and not seen before. -/
def dedupLinksAux {α : Type} (seen : List String) : List (Option String × α) → List (String × α)
  | [] => []
  | la :: t =>
    match validHref la.1 with
    | none => dedupLinksAux seen t
    | some h =>
      if h ∈ seen then dedupLinksAux seen t
      else (h, la.2) :: dedupLinksAux (h :: seen) t

/-- Python `if max_results: listings = listings[:max_results]` — again a cap
of `0` is falsy and leaves the list untruncated. -/
def applyCap {α : Type} (cap : Option Nat) (listings : List α) : List α :=
  match cap with
  | none => listings
  | some m => if 0 < m then listings.take m else listings

/-- The ordered handle collection returned by listing discovery: dedup by
href (first occurrence wins), then truncate to the configured cap. -/
def discoveredListings {α : Type} (links : List (Option String × α)) (cap : Option Nat) :
    List (String × α) :=
  applyCap cap (dedupLinksAux [] links)

/-- Reference form of the discovery invariant, written from the spec's
words: keep the first occurrence of each href, preserving display order. -/
def firstOccurrenceDedup {α : Type} : List (String × α) → List (String × α)
  | [] => []
  | q :: t => q :: firstOccurrenceDedup (t.filter (fun r => r.1 != q.1))
termination_by l => l.length
decreasing_by
  simp_wf
  exact Nat.lt_succ_of_le (List.length_filter_le _ _)

/-- Per-listing control flow of src/scraper.py (lines 352-385): one click
(`clickOk = false` models the click raising, caught by the listing-level
`except`), then the wait for the detail-view marker; a marker timeout hits
`continue` and the listing yields no record.  The result is the record
handed to the acceptance check, when one is built at all. -/
def processListingB (clickOk : Bool) (markerOk : Bool) (rec : Place) : Option Place :=
  if clickOk then
    if markerOk then some rec else none
  else none

/-- The click-retry loop of src/scrapern.py (lines 481-491): up to 5
attempts, success if any attempt's click lands. -/
def clickRetrySucceeds (attempts : List Bool) : Bool :=
  (attempts.take 5).any (fun b => b)

/-- The marker-wait retry loop of src/scrapern.py (lines 498-508): up to 5
bounded waits for the detail-view marker. -/
def markerWaitSucceeds (attempts : List Bool) : Bool :=
  (attempts.take 5).any (fun b => b)

/-- Per-listing control flow of src/scrapern.py (lines 478-531): exhausted
click retries `continue` past the listing; otherwise `details_loaded` is
computed by the marker-wait loop and — exactly as in the source, which never
reads it afterwards — extraction proceeds regardless of its value. -/
def processListingE (clickAttempts markerAttempts : List Bool) (rec : Place) : Option Place :=
  if clickRetrySucceeds clickAttempts then
    let _details_loaded := markerWaitSucceeds markerAttempts
    some rec
  else none

/-- Outcome of one keyword's processing inside the batch loop's `try`:
`scrape_single_keyword` (and the subsequent saves) ran to completion
returning these places, or some exception escaped, or a
`KeyboardInterrupt` was observed. -/
inductive KeywordOutcome where
  | success (places : List Place)
  | failure
  | interrupt
deriving DecidableEq

/-- The `results_summary` dict of `batch_scrape_keywords` (fields relevant
to control flow; the timestamps are environment reads). -/
structure Summary where
  total_keywords : Nat
  completed : Nat
  failed : Nat
  total_places : Nat
  categories : List (String × Nat)
  last_completed_keyword : String
  failed_keywords : List String
deriving DecidableEq

/-- Initial `results_summary` (src/scraper.py lines 478-487,
src/scrapern.py lines 633-642). -/
def initSummary (total : Nat) : Summary :=
  { total_keywords := total, completed := 0, failed := 0, total_places := 0,
    categories := [], last_completed_keyword := "", failed_keywords := [] }

/-- `results_summary['categories'][category] += len(places)` with the
missing-key initialization. -/
def bumpCategory : List (String × Nat) → String → Nat → List (String × Nat)
  | [], cat, n => [(cat, n)]
  | (c, k) :: rest, cat, n =>
    if c = cat then (c, k + n) :: rest else (c, k) :: bumpCategory rest cat n

/-- Summary update on a keyword that completed without an exception:
totals and categories are touched only when places were found, and
`completed`/`last_completed_keyword` advance unconditionally. -/
def recordSuccess (s : Summary) (kw : String) (places : List Place) : Summary :=
  let s' :=
    if places ≠ [] then
      { s with total_places := s.total_places + places.length,
               categories := bumpCategory s.categories (get_category_from_keyword kw) places.length }
    else s
  { s' with completed := s'.completed + 1, last_completed_keyword := kw }

/-- The keyword `for` loop of `batch_scrape_keywords` (src/scraper.py lines
493-542, src/scrapern.py lines 649-694): `KeyboardInterrupt` breaks the
loop, any other exception records the keyword in `failed_keywords` and
continues, and a completed keyword updates the summary and continues. -/
def batchLoop (step : String → KeywordOutcome) : List String → Summary → Summary
  | [], s => s
  | kw :: rest, s =>
    match step kw with
    | .interrupt => s
    | .failure =>
      batchLoop step rest
        { s with failed := s.failed + 1, failed_keywords := s.failed_keywords ++ [kw] }
    | .success places => batchLoop step rest (recordSuccess s kw places)

/-- `batch_scrape_keywords(keywords, ..., start_from)`: iterate
`keywords[start_from:]` from the fresh summary (whose `total_keywords` is
the full list's length). -/
def batch_scrape_keywords (step : String → KeywordOutcome)
    (keywords : List String) (start_from : Nat) : Summary :=
  batchLoop step (keywords.drop start_from) (initSummary keywords.length)

/-- Monotone-towards-Yes relation between the old and the new value of one
tri-state flag across part of an extraction pass: the value is either
unchanged or the literal `"Yes"` (so `"No"`/`"Unknown"` are never written),
and an existing `"Yes"` is never downgraded. -/
def YesMono (a b : String) : Prop :=
  (b = a ∨ b = "Yes") ∧ (a = "Yes" → b = "Yes")

/-- All eight tri-state service flags of a record evolve monotonically
towards `"Yes"` between two states of one extraction pass. -/
def FlagsMono (p q : Place) : Prop :=
  YesMono p.store_shopping q.store_shopping ∧
  YesMono p.in_store_pickup q.in_store_pickup ∧
  YesMono p.takeaway q.takeaway ∧
  YesMono p.store_delivery q.store_delivery ∧
  YesMono p.dine_in q.dine_in ∧
  YesMono p.reservations q.reservations ∧
  YesMono p.wheelchair_accessible q.wheelchair_accessible ∧
  YesMono p.verified_business q.verified_business

lemma filter_eq_nil_of_false {α : Type} (p : α → Bool) :
    ∀ l : List α, (∀ a ∈ l, p a = false) → l.filter p = [] := by
  intro l h
  induction l with
  | nil => rfl
  | cons a t ih =>
    have ha := h a (List.mem_cons_self a t)
    simp only [List.filter, ha]
    exact ih fun b hb => h b (List.mem_cons_of_mem a hb)

lemma mem_takeWhile_pred {α : Type} (p : α → Bool) :
    ∀ (l : List α) (a : α), a ∈ l.takeWhile p → p a = true := by
  intro l
  induction l with
  | nil => intro a ha; simp [List.takeWhile] at ha
  | cons b t ih =>
    intro a ha
    by_cases hb : p b
    · simp only [List.takeWhile, hb] at ha
      rcases List.mem_cons.mp ha with h | h
      · exact h ▸ hb
      · exact ih a h
    · simp only [List.takeWhile, Bool.not_eq_true] at ha hb
      simp [hb] at ha

lemma mem_takeWhile_mem {α : Type} (p : α → Bool) :
    ∀ (l : List α) (a : α), a ∈ l.takeWhile p → a ∈ l := by
  intro l
  induction l with
  | nil => intro a ha; simp [List.takeWhile] at ha
  | cons b t ih =>
    intro a ha
    by_cases hb : p b
    · simp only [List.takeWhile, hb] at ha
      rcases List.mem_cons.mp ha with h | h
      · exact h ▸ List.mem_cons_self b t
      · exact List.mem_cons_of_mem b (ih a h)
    · simp only [List.takeWhile, Bool.not_eq_true] at ha hb
      simp [hb] at ha

lemma firstRun_no_digit :
    ∀ l : List Char, (∀ c ∈ l, c.isDigit = false) →
      ∀ r, firstDigitCommaRun l = some r → ∀ c ∈ r, c = ',' := by
  intro l
  induction l with
  | nil => intro _ r hr; simp [firstDigitCommaRun] at hr
  | cons a t ih =>
    intro h r hr c hc
    by_cases hdc : isDigitOrComma a
    · simp only [firstDigitCommaRun, hdc, if_true, Option.some.injEq] at hr
      have ha : a = ',' := by
        have := h a (List.mem_cons_self a t)
        simpa [isDigitOrComma, this] using hdc
      rcases List.mem_cons.mp (hr ▸ hc) with h1 | h1
      · exact h1.trans ha
      · have hpred := mem_takeWhile_pred isDigitOrComma t c h1
        have hmem := mem_takeWhile_mem isDigitOrComma t c h1
        have := h c (List.mem_cons_of_mem a hmem)
        simpa [isDigitOrComma, this] using hpred
    · simp only [firstDigitCommaRun, hdc, if_false] at hr
      exact ih (fun b hb => h b (List.mem_cons_of_mem a hb)) r hr c hc

lemma extract_all_none :
    ∀ cands : List LocatorOutcome, (∀ c ∈ cands, candText c = none) →
      extract_text_multiple cands = "" := by
  intro cands h
  induction cands with
  | nil => rfl
  | cons c rest ih =>
    have hc := h c (List.mem_cons_self c rest)
    simp only [extract_text_multiple, hc]
    exact ih fun d hd => h d (List.mem_cons_of_mem c hd)

/-- C6.  Field resolution by `extract_text_multiple` returns the trimmed
text of the first candidate that matches and trims to non-empty text,
regardless of later candidates; it returns `""` when every candidate falls
through; and a raising (or non-matching) candidate is never fatal — it only
moves resolution to the next candidate. -/
theorem claim_C6 :
    (∀ (t : String) (rest : List LocatorOutcome), pyStrip t ≠ "" →
        extract_text_multiple (.matches t :: rest) = pyStrip t) ∧
    (∀ cands : List LocatorOutcome, (∀ c ∈ cands, candText c = none) →
        extract_text_multiple cands = "") ∧
    (∀ rest : List LocatorOutcome,
        extract_text_multiple (.raises :: rest) = extract_text_multiple rest) ∧
    (∀ rest : List LocatorOutcome,
        extract_text_multiple (.noMatch :: rest) = extract_text_multiple rest) := by
  refine ⟨?_, extract_all_none, ?_, ?_⟩
  · intro t rest h
    simp [extract_text_multiple, candText, h]
  · intro rest; rfl
  · intro rest; rfl

/-- C6 witness: the first candidate trims to `"hi"` and wins even though a
later candidate would raise. -/
theorem claim_C6_witness :
    extract_text_multiple [.matches "  hi ", .raises] = pyStrip "  hi " :=
  claim_C6.1 "  hi " [.raises] (by decide)

/-- C7.  Review-count parsing takes the first digit/separator run, strips
the separators and parses the digits (`"1,234 reviews"` parses to `1234`),
and on every raw string containing no digit the field stays unset. -/
theorem claim_C7 :
    reviewsCountFrom "1,234 reviews" = some 1234 ∧
    ∀ s : String, (∀ c ∈ s.data, c.isDigit = false) → reviewsCountFrom s = none := by
  refine ⟨by decide, ?_⟩
  intro s h
  unfold reviewsCountFrom
  by_cases hs : s = ""
  · simp [hs]
  · simp only [hs, if_false]
    cases hr : firstDigitCommaRun s.data with
    | none => rfl
    | some run =>
      have hcomma : ∀ c ∈ run, c = ',' := firstRun_no_digit s.data h run hr
      have hnil : run.filter (fun c => c != ',') = [] :=
        filter_eq_nil_of_false _ run fun a ha => by simp [hcomma a ha]
      simp [hnil, parseIntStr]

/-- C7 witness: a digit-free raw string leaves the field unset. -/
theorem claim_C7_witness : reviewsCountFrom "no reviews yet" = none :=
  claim_C7.2 "no reviews yet" (by decide)

/-- C10.  When every introduction candidate fails or trims to empty, the
built record's introduction is the sentinel `"None Found"`; and the
introduction of a built record is never the empty string. -/
theorem claim_C10 :
    (∀ cands : List LocatorOutcome, (∀ c ∈ cands, candText c = none) →
        introductionField cands = "None Found") ∧
    (∀ cands : List LocatorOutcome, introductionField cands ≠ "") := by
  constructor
  · intro cands h
    simp [introductionField, extract_all_none cands h]
  · intro cands
    unfold introductionField
    by_cases h : extract_text_multiple cands = "" <;> simp [h]

/-- C10 witness: with a raising candidate and a non-matching candidate the
introduction field is the sentinel. -/
theorem claim_C10_witness : introductionField [.raises, .noMatch] = "None Found" :=
  claim_C10.1 [.raises, .noMatch] (by decide)

lemma acceptPlace_mem_step (u : Place → Bool) (k : Place → String) (st : Accum) (p q : Place) :
    q ∈ (acceptPlace u k st p).places → q ∈ st.places ∨ (q = p ∧ u p = true) := by
  intro hq
  unfold acceptPlace at hq
  by_cases hu : u p
  · by_cases hk : k p ∈ st.seen
    · simp only [hu, hk, if_true] at hq
      exact Or.inl hq
    · simp only [hu, hk, if_true, if_false] at hq
      rcases List.mem_append.mp hq with h | h
      · exact Or.inl h
      · exact Or.inr ⟨List.mem_singleton.mp h, hu⟩
  · simp only [hu, Bool.false_eq_true, if_false] at hq
    exact Or.inl hq

lemma mem_foldl_acceptPlace (u : Place → Bool) (k : Place → String) :
    ∀ (recs : List Place) (st : Accum) (q : Place),
      q ∈ (recs.foldl (acceptPlace u k) st).places → q ∈ st.places ∨ u q = true := by
  intro recs
  induction recs with
  | nil => intro st q hq; exact Or.inl hq
  | cons p rest ih =>
    intro st q hq
    rcases ih (acceptPlace u k st p) q hq with h | h
    · rcases acceptPlace_mem_step u k st p q h with h1 | ⟨rfl, h1⟩
      · exact Or.inl h1
      · exact Or.inr h1
    · exact Or.inr h

lemma acceptPlace_key_seen (u : Place → Bool) (k : Place → String) (st : Accum) (p : Place)
    (hu : u p = true) : k p ∈ (acceptPlace u k st p).seen := by
  unfold acceptPlace
  by_cases hk : k p ∈ st.seen
  · simp [hu, hk]
  · simp only [hu, hk, if_true, if_false]
    exact List.mem_append.mpr (Or.inr (List.mem_singleton.mpr rfl))

lemma acceptPlace_of_seen (u : Place → Bool) (k : Place → String) (st : Accum) (q : Place)
    (hq : k q ∈ st.seen) : acceptPlace u k st q = st := by
  unfold acceptPlace
  by_cases hu : u q <;> simp [hu, hq]

lemma acceptPlace_same_key (u : Place → Bool) (k : Place → String) (st : Accum) (p q : Place)
    (hu : u p = true) (hk : k q = k p) :
    acceptPlace u k (acceptPlace u k st p) q = acceptPlace u k st p :=
  acceptPlace_of_seen u k _ q (hk ▸ acceptPlace_key_seen u k st p hu)

lemma acceptPlace_idem (u : Place → Bool) (k : Place → String) (st : Accum) (p : Place) :
    acceptPlace u k (acceptPlace u k st p) p = acceptPlace u k st p := by
  by_cases hu : u p
  · exact acceptPlace_same_key u k st p p hu rfl
  · have h1 : acceptPlace u k st p = st := by simp [acceptPlace, hu]
    rw [h1, h1]

lemma acceptPlace_inv_step (u : Place → Bool) (k : Place → String) (st : Accum) (p : Place)
    (h : ((st.places.map k).Nodup ∧ ∀ q ∈ st.places, k q ∈ st.seen)) :
    (((acceptPlace u k st p).places.map k).Nodup ∧
      ∀ q ∈ (acceptPlace u k st p).places, k q ∈ (acceptPlace u k st p).seen) := by
  obtain ⟨hnd, hsub⟩ := h
  unfold acceptPlace
  by_cases hu : u p
  · by_cases hk : k p ∈ st.seen
    · simp only [hu, hk, if_true]; exact ⟨hnd, hsub⟩
    · simp only [hu, hk, if_true, if_false]
      constructor
      · rw [List.map_append]
        rw [List.nodup_append]
        refine ⟨hnd, List.nodup_singleton _, ?_⟩
        intro x hx hx'
        rcases List.mem_map.mp hx with ⟨q, hq, rfl⟩
        have := hsub q hq
        rw [List.map_singleton, List.mem_singleton] at hx'
        exact hk (hx' ▸ this)
      · intro q hq
        rcases List.mem_append.mp hq with h1 | h1
        · exact List.mem_append.mpr (Or.inl (hsub q h1))
        · rw [List.mem_singleton] at h1
          subst h1
          exact List.mem_append.mpr (Or.inr (List.mem_singleton.mpr rfl))
  · simp only [hu, Bool.false_eq_true, if_false]; exact ⟨hnd, hsub⟩

lemma accum_inv (u : Place → Bool) (k : Place → String) :
    ∀ (recs : List Place) (st : Accum),
      ((st.places.map k).Nodup ∧ ∀ q ∈ st.places, k q ∈ st.seen) →
      (((recs.foldl (acceptPlace u k) st).places.map k).Nodup ∧
        ∀ q ∈ (recs.foldl (acceptPlace u k) st).places,
          k q ∈ (recs.foldl (acceptPlace u k) st).seen) := by
  intro recs
  induction recs with
  | nil => intro st h; exact h
  | cons p rest ih =>
    intro st h
    exact ih (acceptPlace u k st p) (acceptPlace_inv_step u k st p h)

/-- C1 counterexample: the basic variant (src/scraper.py) drops a built
record whose name and address are empty even though its phone number is
non-empty, contradicting the claimed "accepted into the result set". -/
theorem claim_C1_counterexample :
    phoneOnlyPlace.name = "" ∧ phoneOnlyPlace.address = "" ∧
    phoneOnlyPlace.phone_number ≠ "" ∧ (accumulateB [phoneOnlyPlace]).places = [] := by
  decide

/-- C1 amended: in the enhanced variant (src/scrapern.py) a record is
retained only if at least one of name, address, phone is non-empty, and a
useful record with a fresh dedup key is always retained — in particular an
empty-name, empty-address, non-empty-phone record; a record with all three
empty is dropped by both variants; the basic variant (src/scraper.py)
instead retains a record only if its name is non-empty. -/
theorem claim_C1 :
    (∀ (recs : List Place) (p : Place), p ∈ (accumulateE recs).places → usefulE p = true) ∧
    (∀ (st : Accum) (p : Place), usefulE p = true → dedupKeyE p ∉ st.seen →
        p ∈ (acceptE st p).places) ∧
    (∀ (recs : List Place) (p : Place), p ∈ (accumulateB recs).places → usefulB p = true) ∧
    (∀ (st : Accum) (p : Place), usefulE p = false → acceptE st p = st) ∧
    (∀ (st : Accum) (p : Place), usefulB p = false → acceptB st p = st) := by
  refine ⟨?_, ?_, ?_, ?_, ?_⟩
  · intro recs p hp
    rcases mem_foldl_acceptPlace usefulE dedupKeyE recs initAccum p hp with h | h
    · simp [initAccum] at h
    · exact h
  · intro st p hu hk
    simp only [acceptE, acceptPlace, hu, hk, if_true, if_false]
    exact List.mem_append.mpr (Or.inr (List.mem_singleton.mpr rfl))
  · intro recs p hp
    rcases mem_foldl_acceptPlace usefulB dedupKeyB recs initAccum p hp with h | h
    · simp [initAccum] at h
    · exact h
  · intro st p hu; simp [acceptE, acceptPlace, hu]
  · intro st p hu; simp [acceptB, acceptPlace, hu]

/-- C1 witness: the phone-only record is accepted by the enhanced
accumulator from the empty state. -/
theorem claim_C1_witness : phoneOnlyPlace ∈ (acceptE initAccum phoneOnlyPlace).places :=
  claim_C1.2.1 initAccum phoneOnlyPlace (by decide) (by decide)

/-- C4.  Appending the same record twice is idempotent in both variants;
appending a second record carrying the same dedup key as an accepted one
leaves the accumulator unchanged; dedup keys are unique within every
accumulated result set; and appending the same useful record twice yields a
set containing it once. -/
theorem claim_C4 :
    (∀ (st : Accum) (p : Place), acceptB (acceptB st p) p = acceptB st p) ∧
    (∀ (st : Accum) (p : Place), acceptE (acceptE st p) p = acceptE st p) ∧
    (∀ (st : Accum) (p q : Place), usefulB p = true → dedupKeyB q = dedupKeyB p →
        acceptB (acceptB st p) q = acceptB st p) ∧
    (∀ (st : Accum) (p q : Place), usefulE p = true → dedupKeyE q = dedupKeyE p →
        acceptE (acceptE st p) q = acceptE st p) ∧
    (∀ recs : List Place, ((accumulateB recs).places.map dedupKeyB).Nodup) ∧
    (∀ recs : List Place, ((accumulateE recs).places.map dedupKeyE).Nodup) ∧
    (∀ p : Place, usefulE p = true → (accumulateE [p, p]).places = [p]) ∧
    (∀ p : Place, usefulB p = true → (accumulateB [p, p]).places = [p]) := by
  refine ⟨?_, ?_, ?_, ?_, ?_, ?_, ?_, ?_⟩
  · intro st p; exact acceptPlace_idem usefulB dedupKeyB st p
  · intro st p; exact acceptPlace_idem usefulE dedupKeyE st p
  · intro st p q hu hk; exact acceptPlace_same_key usefulB dedupKeyB st p q hu hk
  · intro st p q hu hk; exact acceptPlace_same_key usefulE dedupKeyE st p q hu hk
  · intro recs
    exact (accum_inv usefulB dedupKeyB recs initAccum
      ⟨by simp [initAccum], by simp [initAccum]⟩).1
  · intro recs
    exact (accum_inv usefulE dedupKeyE recs initAccum
      ⟨by simp [initAccum], by simp [initAccum]⟩).1
  · intro p hu
    show (acceptE (acceptE initAccum p) p).places = [p]
    rw [show acceptE (acceptE initAccum p) p = acceptE initAccum p from
      acceptPlace_idem usefulE dedupKeyE initAccum p]
    simp [acceptE, acceptPlace, hu, initAccum]
  · intro p hu
    show (acceptB (acceptB initAccum p) p).places = [p]
    rw [show acceptB (acceptB initAccum p) p = acceptB initAccum p from
      acceptPlace_idem usefulB dedupKeyB initAccum p]
    simp [acceptB, acceptPlace, hu, initAccum]

/-- C4 witness: appending the phone-only record twice to the enhanced
accumulator yields a result set containing it once. -/
theorem claim_C4_witness :
    (accumulateE [phoneOnlyPlace, phoneOnlyPlace]).places = [phoneOnlyPlace] :=
  claim_C4.2.2.2.2.2.2.1 phoneOnlyPlace (by decide)

/-- C2 counterexample: in the basic variant (src/scraper.py) a listing whose
detail view opened (`clickOk = true`) but whose detail-view marker never
appeared within the bounded wait (`markerOk = false`) is skipped via
`continue` — no record is considered for acceptance, contradicting the
claimed best-effort extraction. -/
theorem claim_C2_counterexample : processListingB true false samplePlace = none := by
  decide

/-- C2 amended: in the enhanced variant (src/scrapern.py) the per-listing
result is independent of the marker-wait outcomes, and whenever the click
retries succeed the record is built and considered for acceptance, even if
the marker never appears; in the basic variant (src/scraper.py) a marker
timeout skips the listing. -/
theorem claim_C2 :
    (∀ (clicks m1 m2 : List Bool) (rec : Place),
        processListingE clicks m1 rec = processListingE clicks m2 rec) ∧
    (∀ (clicks markers : List Bool) (rec : Place), clickRetrySucceeds clicks = true →
        processListingE clicks markers rec = some rec) ∧
    (∀ rec : Place, processListingB true false rec = none) := by
  refine ⟨?_, ?_, ?_⟩
  · intro clicks m1 m2 rec; rfl
  · intro clicks markers rec h; simp [processListingE, h]
  · intro rec; rfl

/-- C2 witness: one successful click, five failed marker waits — the record
is still produced for the acceptance check. -/
theorem claim_C2_witness :
    processListingE [true] [false, false, false, false, false] samplePlace = some samplePlace :=
  claim_C2.2.1 [true] [false, false, false, false, false] samplePlace (by decide)

lemma recordSuccess_failed_keywords (s : Summary) (kw : String) (places : List Place) :
    (recordSuccess s kw places).failed_keywords = s.failed_keywords := by
  unfold recordSuccess
  by_cases h : places ≠ [] <;> simp [h]

lemma recordSuccess_completed (s : Summary) (kw : String) (places : List Place) :
    (recordSuccess s kw places).completed = s.completed + 1 := by
  unfold recordSuccess
  by_cases h : places ≠ [] <;> simp [h]

lemma recordSuccess_failed (s : Summary) (kw : String) (places : List Place) :
    (recordSuccess s kw places).failed = s.failed := by
  unfold recordSuccess
  by_cases h : places ≠ [] <;> simp [h]

lemma batchLoop_fk_mono (step : String → KeywordOutcome) :
    ∀ (kws : List String) (s : Summary) (x : String),
      x ∈ s.failed_keywords → x ∈ (batchLoop step kws s).failed_keywords := by
  intro kws
  induction kws with
  | nil => intro s x hx; exact hx
  | cons kw rest ih =>
    intro s x hx
    cases hstep : step kw with
    | interrupt => simpa [batchLoop, hstep] using hx
    | failure =>
      simp only [batchLoop, hstep]
      exact ih _ x (List.mem_append.mpr (Or.inl hx))
    | success places =>
      simp only [batchLoop, hstep]
      exact ih _ x ((recordSuccess_failed_keywords s kw places).symm ▸ hx)

lemma batchLoop_count (step : String → KeywordOutcome) :
    ∀ (kws : List String) (s : Summary),
      (∀ kw ∈ kws, step kw ≠ KeywordOutcome.interrupt) →
      (batchLoop step kws s).completed + (batchLoop step kws s).failed =
        s.completed + s.failed + kws.length := by
  intro kws
  induction kws with
  | nil => intro s _; simp [batchLoop]
  | cons kw rest ih =>
    intro s h
    cases hstep : step kw with
    | interrupt => exact absurd hstep (h kw (List.mem_cons_self kw rest))
    | failure =>
      simp only [batchLoop, hstep]
      rw [ih _ (fun k hk => h k (List.mem_cons_of_mem kw hk))]
      simp only [List.length_cons]
      omega
    | success places =>
      simp only [batchLoop, hstep]
      rw [ih _ (fun k hk => h k (List.mem_cons_of_mem kw hk))]
      rw [recordSuccess_completed, recordSuccess_failed]
      simp only [List.length_cons]
      omega

lemma batchLoop_failure_mem (step : String → KeywordOutcome) :
    ∀ (kws : List String) (s : Summary),
      (∀ k2 ∈ kws, step k2 ≠ KeywordOutcome.interrupt) →
      ∀ kw ∈ kws, step kw = KeywordOutcome.failure →
        kw ∈ (batchLoop step kws s).failed_keywords := by
  intro kws
  induction kws with
  | nil => intro s _ kw hkw; simp at hkw
  | cons k rest ih =>
    intro s hni kw hkw hf
    cases hstep : step k with
    | interrupt => exact absurd hstep (hni k (List.mem_cons_self k rest))
    | failure =>
      simp only [batchLoop, hstep]
      rcases List.mem_cons.mp hkw with rfl | hmem
      · exact batchLoop_fk_mono step rest _ kw
          (List.mem_append.mpr (Or.inr (List.mem_singleton.mpr rfl)))
      · exact ih _ (fun k2 h2 => hni k2 (List.mem_cons_of_mem k h2)) kw hmem hf
    | success places =>
      simp only [batchLoop, hstep]
      rcases List.mem_cons.mp hkw with rfl | hmem
      · rw [hf] at hstep; simp at hstep
      · exact ih _ (fun k2 h2 => hni k2 (List.mem_cons_of_mem k h2)) kw hmem hf

/-- C3.  When no keyword's processing observes a user interruption, the
batch loop accounts for every keyword in the list (`completed + failed`
grows by exactly the list length, so the loop only terminates by exhausting
the keyword list), and every keyword whose processing raised an unexpected
failure ends up recorded in `failed_keywords` while the loop continues;
a user interruption is the only other way out and stops the loop at the
current summary. -/
theorem claim_C3 :
    (∀ (step : String → KeywordOutcome) (kws : List String) (s : Summary),
        (∀ kw ∈ kws, step kw ≠ KeywordOutcome.interrupt) →
        (batchLoop step kws s).completed + (batchLoop step kws s).failed =
          s.completed + s.failed + kws.length) ∧
    (∀ (step : String → KeywordOutcome) (kws : List String) (s : Summary) (kw : String),
        (∀ k2 ∈ kws, step k2 ≠ KeywordOutcome.interrupt) → kw ∈ kws →
        step kw = KeywordOutcome.failure → kw ∈ (batchLoop step kws s).failed_keywords) ∧
    (∀ (step : String → KeywordOutcome) (kw : String) (rest : List String) (s : Summary),
        step kw = KeywordOutcome.interrupt → batchLoop step (kw :: rest) s = s) := by
  refine ⟨?_, ?_, ?_⟩
  · intro step kws s h; exact batchLoop_count step kws s h
  · intro step kws s kw hni hkw hf; exact batchLoop_failure_mem step kws s hni kw hkw hf
  · intro step kw rest s h; simp [batchLoop, h]

/-- C3 witness: in a three-keyword batch whose middle keyword fails, the
failing keyword is recorded in `failed_keywords` and the batch still reaches
the end of the list. -/
theorem claim_C3_witness :
    "bad" ∈ (batchLoop (fun kw => if kw = "bad" then .failure else .success [])
      ["a", "bad", "c"] (initSummary 3)).failed_keywords :=
  claim_C3.2.1 (fun kw => if kw = "bad" then .failure else .success [])
    ["a", "bad", "c"] (initSummary 3) "bad" (by decide) (by decide) (by decide)

lemma scrollAux_succ (counts : Nat → Option Nat) (cap : Option Nat) (patience : Nat)
    (fuel attempts prev nc : Nat) :
    scrollAux counts cap patience (fuel + 1) attempts prev nc =
      match counts (attempts + 1) with
      | none => attempts + 1
      | some found =>
        if capHit cap found then attempts + 1
        else if found = prev then
          if patience ≤ nc + 1 then attempts + 1
          else scrollAux counts cap patience fuel (attempts + 1) found (nc + 1)
        else scrollAux counts cap patience fuel (attempts + 1) found 0 := rfl

lemma scrollAux_succ_none (counts : Nat → Option Nat) (cap : Option Nat) (patience : Nat)
    (fuel attempts prev nc : Nat) (h : counts (attempts + 1) = none) :
    scrollAux counts cap patience (fuel + 1) attempts prev nc = attempts + 1 := by
  rw [scrollAux_succ, h]

lemma scrollAux_succ_some (counts : Nat → Option Nat) (cap : Option Nat) (patience : Nat)
    (fuel attempts prev nc found : Nat) (h : counts (attempts + 1) = some found) :
    scrollAux counts cap patience (fuel + 1) attempts prev nc =
      if capHit cap found then attempts + 1
      else if found = prev then
        if patience ≤ nc + 1 then attempts + 1
        else scrollAux counts cap patience fuel (attempts + 1) found (nc + 1)
      else scrollAux counts cap patience fuel (attempts + 1) found 0 := by
  rw [scrollAux_succ, h]

lemma scrollAux_le (counts : Nat → Option Nat) (cap : Option Nat) (patience : Nat) :
    ∀ (fuel attempts prev nc : Nat),
      scrollAux counts cap patience fuel attempts prev nc ≤ attempts + fuel := by
  intro fuel
  induction fuel with
  | zero => intro attempts prev nc; simp [scrollAux]
  | succ f ih =>
    intro attempts prev nc
    cases h : counts (attempts + 1) with
    | none =>
      rw [scrollAux_succ_none counts cap patience f attempts prev nc h]
      omega
    | some found =>
      rw [scrollAux_succ_some counts cap patience f attempts prev nc found h]
      split_ifs with hcap heq hp
      · omega
      · omega
      · exact le_trans (ih (attempts + 1) found (nc + 1)) (by omega)
      · exact le_trans (ih (attempts + 1) found 0) (by omega)

lemma scrollAux_const (counts : Nat → Option Nat) (patience c : Nat) :
    ∀ (fuel a nc : Nat), (∀ i, a < i → counts i = some c) → nc < patience →
      scrollAux counts none patience fuel a c nc ≤ a + (patience - nc) := by
  intro fuel
  induction fuel with
  | zero => intro a nc _ _; simp [scrollAux]
  | succ f ih =>
    intro a nc h hnc
    rw [scrollAux_succ_some counts none patience f a c nc c (h (a + 1) (by omega))]
    split_ifs with hcap hceq hp
    · exact absurd hcap (by simp [capHit])
    · omega
    · have := ih (a + 1) (nc + 1) (fun i hi => h i (by omega)) (by omega)
      omega
    · exact absurd rfl hceq

lemma scrollCycles_hard_bound (counts : Nat → Option Nat) (cap : Option Nat) (patience : Nat) :
    scrollCycles counts cap patience ≤ max_scroll_attempts := by
  have := scrollAux_le counts cap patience max_scroll_attempts 0 0 0
  simpa [scrollCycles] using this

lemma scrollCycles_const (counts : Nat → Option Nat) (c patience : Nat)
    (h : ∀ i, counts i = some c) (hp : 0 < patience) :
    scrollCycles counts none patience ≤ patience + 1 := by
  show scrollAux counts none patience (49 + 1) 0 0 0 ≤ patience + 1
  rw [scrollAux_succ_some counts none patience 49 0 0 0 c (h 1)]
  split_ifs with hcap hceq hp1
  · exact absurd hcap (by simp [capHit])
  · omega
  · have := scrollAux_const counts patience c 49 (0 + 1) (0 + 1)
      (fun i hi => h i) (by omega)
    omega
  · have := scrollAux_const counts patience c 49 (0 + 1) 0
      (fun i hi => h i) hp
    omega

/-- C5.  For every observed count sequence (growing forever, never
stabilizing, or raising) and every cap configuration, the scroll/settle
loop performs at most `max_scroll_attempts = 50` cycles; and when the
rendered count holds a constant value the loop stops within
`patience + 1` cycles — for both configured patience thresholds
(`max_no_change = 5` in the basic variant and `8` in the enhanced one) this
is strictly below the hard bound. -/
theorem claim_C5 :
    (∀ (counts : Nat → Option Nat) (cap : Option Nat) (patience : Nat),
        scrollCycles counts cap patience ≤ max_scroll_attempts) ∧
    (∀ (counts : Nat → Option Nat) (c patience : Nat),
        (∀ i, counts i = some c) → 0 < patience →
        scrollCycles counts none patience ≤ patience + 1) ∧
    max_no_change_B + 1 < max_scroll_attempts ∧
    max_no_change_E + 1 < max_scroll_attempts := by
  refine ⟨scrollCycles_hard_bound, ?_, by decide, by decide⟩
  intro counts c patience h hp
  exact scrollCycles_const counts c patience h hp

/-- C5 witness: with a panel stuck at 12 rendered results and the basic
patience threshold 5, the loop stops within 6 cycles, well before the hard
bound of 50. -/
theorem claim_C5_witness :
    scrollCycles (fun _ => some 12) none max_no_change_B ≤ max_no_change_B + 1 :=
  claim_C5.2.1 (fun _ => some 12) 12 max_no_change_B (fun _ => rfl) (by decide)

lemma my_filter_filter {α : Type} (p q : α → Bool) :
    ∀ l : List α, (l.filter p).filter q = l.filter (fun a => p a && q a) := by
  intro l
  induction l with
  | nil => rfl
  | cons a t ih =>
    by_cases hp : p a
    · by_cases hq : q a <;> simp [List.filter_cons, hp, hq, ih]
    · simp [List.filter_cons, hp, ih]

lemma my_filter_congr {α : Type} (p q : α → Bool) :
    ∀ l : List α, (∀ a ∈ l, p a = q a) → l.filter p = l.filter q := by
  intro l
  induction l with
  | nil => intro _; rfl
  | cons a t ih =>
    intro h
    have ha := h a (List.mem_cons_self a t)
    by_cases hp : p a
    · simp [List.filter_cons, hp, ha ▸ hp, ih (fun b hb => h b (List.mem_cons_of_mem a hb))]
    · have hq : ¬ q a = true := fun hc => hp (ha ▸ hc)
      simp [List.filter_cons, hp, hq, ih (fun b hb => h b (List.mem_cons_of_mem a hb))]

lemma collectPairs_cons_none {α : Type} (la : Option String × α) (t : List (Option String × α))
    (hv : validHref la.1 = none) : collectPairs (la :: t) = collectPairs t := by
  simp [collectPairs, List.filterMap_cons, hv]

lemma collectPairs_cons_some {α : Type} (la : Option String × α) (t : List (Option String × α))
    (h : String) (hv : validHref la.1 = some h) :
    collectPairs (la :: t) = (h, la.2) :: collectPairs t := by
  simp [collectPairs, List.filterMap_cons, hv]

lemma firstOccurrenceDedup_cons {α : Type} (q : String × α) (t : List (String × α)) :
    firstOccurrenceDedup (q :: t) = q :: firstOccurrenceDedup (t.filter (fun r => r.1 != q.1)) := by
  rw [firstOccurrenceDedup]

lemma dedupLinksAux_eq {α : Type} :
    ∀ (links : List (Option String × α)) (seen : List String),
      dedupLinksAux seen links =
        firstOccurrenceDedup ((collectPairs links).filter (fun q => decide (q.1 ∉ seen))) := by
  intro links
  induction links with
  | nil =>
    intro seen
    show dedupLinksAux seen [] = firstOccurrenceDedup (List.filter _ (collectPairs []))
    rw [show collectPairs (α := α) [] = [] from rfl]
    rw [show List.filter (fun q : String × α => decide (q.1 ∉ seen)) [] = [] from rfl]
    rw [show firstOccurrenceDedup ([] : List (String × α)) = [] from firstOccurrenceDedup.eq_1]
    rfl
  | cons la t ih =>
    intro seen
    cases hv : validHref la.1 with
    | none =>
      rw [collectPairs_cons_none la t hv]
      simp only [dedupLinksAux, hv]
      exact ih seen
    | some h =>
      rw [collectPairs_cons_some la t h hv]
      simp only [dedupLinksAux, hv]
      by_cases hmem : h ∈ seen
      · simp only [hmem, if_true]
        rw [List.filter_cons_of_neg (by simp [hmem])]
        exact ih seen
      · simp only [hmem, if_false]
        rw [List.filter_cons_of_pos (by simp [hmem])]
        rw [firstOccurrenceDedup_cons]
        have hpt : ∀ q' : String × α,
            (decide (q'.1 ∉ seen) && (q'.1 != h)) = decide (q'.1 ∉ h :: seen) := by
          intro q'
          by_cases h1 : q'.1 = h <;> by_cases h2 : q'.1 ∈ seen <;>
            simp [h1, h2, List.mem_cons]
        rw [my_filter_filter, my_filter_congr _ _ _ (fun a _ => hpt a)]
        rw [ih (h :: seen)]

lemma dedupLinksAux_sublist {α : Type} :
    ∀ (links : List (Option String × α)) (seen : List String),
      List.Sublist (dedupLinksAux seen links) (collectPairs links) := by
  intro links
  induction links with
  | nil => intro seen; exact List.Sublist.refl _
  | cons la t ih =>
    intro seen
    cases hv : validHref la.1 with
    | none =>
      rw [collectPairs_cons_none la t hv]
      simp only [dedupLinksAux, hv]
      exact ih seen
    | some h =>
      rw [collectPairs_cons_some la t h hv]
      simp only [dedupLinksAux, hv]
      by_cases hmem : h ∈ seen
      · simp only [hmem, if_true]
        exact List.Sublist.cons _ (ih seen)
      · simp only [hmem, if_false]
        exact List.Sublist.cons₂ _ (ih (h :: seen))

lemma dedupLinksAux_spec {α : Type} :
    ∀ (links : List (Option String × α)) (seen : List String),
      (∀ q ∈ dedupLinksAux seen links, q.1 ∉ seen) ∧
      ((dedupLinksAux seen links).map Prod.fst).Nodup := by
  intro links
  induction links with
  | nil =>
    intro seen
    refine ⟨?_, ?_⟩
    · intro q hq; simp [dedupLinksAux] at hq
    · simp [dedupLinksAux]
  | cons la t ih =>
    intro seen
    cases hv : validHref la.1 with
    | none => simp only [dedupLinksAux, hv]; exact ih seen
    | some h =>
      simp only [dedupLinksAux, hv]
      by_cases hmem : h ∈ seen
      · simp only [hmem, if_true]; exact ih seen
      · simp only [hmem, if_false]
        obtain ⟨ih1, ih2⟩ := ih (h :: seen)
        refine ⟨?_, ?_⟩
        · intro q hq
          rcases List.mem_cons.mp hq with rfl | hq'
          · exact hmem
          · exact fun hcon => (ih1 q hq') (List.mem_cons_of_mem h hcon)
        · rw [List.map_cons, List.nodup_cons]
          refine ⟨?_, ih2⟩
          intro hcon
          rcases List.mem_map.mp hcon with ⟨q, hq, hq1⟩
          exact (ih1 q hq) (hq1 ▸ List.mem_cons_self h seen)

lemma applyCap_sublist {α : Type} (cap : Option Nat) (l : List α) : List.Sublist (applyCap cap l) l := by
  cases cap with
  | none => exact List.Sublist.refl _
  | some m =>
    by_cases hm : 0 < m
    · simp only [applyCap, hm, if_true]
      exact List.take_sublist m l
    · simp only [applyCap, hm, if_false]
      exact List.Sublist.refl _

lemma applyCap_length_le {α : Type} (m : Nat) (l : List α) (hm : 0 < m) :
    (applyCap (some m) l).length ≤ m := by
  simp only [applyCap, hm, if_true, List.length_take]
  omega

/-- C8.  The returned listing collection is exactly the first-occurrence
href dedup of the valid rendered links in display order (so it contains at
most one handle per href, first occurrence wins); it is a sublist of the
rendered order (order preserved) with pairwise-distinct hrefs under any cap
configuration; and its length never exceeds a configured (non-zero, i.e.
truthy) cap. -/
theorem claim_C8 :
    (∀ (α : Type) (links : List (Option String × α)),
        dedupLinksAux [] links = firstOccurrenceDedup (collectPairs links)) ∧
    (∀ (α : Type) (links : List (Option String × α)) (cap : Option Nat),
        ((discoveredListings links cap).map Prod.fst).Nodup) ∧
    (∀ (α : Type) (links : List (Option String × α)) (cap : Option Nat),
        List.Sublist (discoveredListings links cap) (collectPairs links)) ∧
    (∀ (α : Type) (links : List (Option String × α)) (m : Nat), 0 < m →
        (discoveredListings links (some m)).length ≤ m) := by
  refine ⟨?_, ?_, ?_, ?_⟩
  · intro α links
    have := dedupLinksAux_eq links ([] : List String)
    simpa using this
  · intro α links cap
    have hsub : List.Sublist ((discoveredListings links cap).map Prod.fst)
        ((dedupLinksAux [] links).map Prod.fst) :=
      List.Sublist.map Prod.fst (applyCap_sublist cap _)
    exact List.Nodup.sublist hsub (dedupLinksAux_spec links []).2
  · intro α links cap
    exact List.Sublist.trans (applyCap_sublist cap _) (dedupLinksAux_sublist links [])
  · intro α links m hm
    exact applyCap_length_le m _ hm

/-- C8 witness: three links with a repeated href and cap 1 produce at most
one listing. -/
theorem claim_C8_witness :
    (discoveredListings [(some "a", (0 : Nat)), (some "a", 1), (some "b", 2)] (some 1)).length ≤ 1 :=
  claim_C8.2.2.2 Nat [(some "a", 0), (some "a", 1), (some "b", 2)] 1 (by decide)

lemma yesMono_refl (a : String) : YesMono a a :=
  ⟨Or.inl rfl, fun h => h⟩

lemma yesMono_trans {a b c : String} (h1 : YesMono a b) (h2 : YesMono b c) : YesMono a c := by
  obtain ⟨h1a, h1b⟩ := h1
  obtain ⟨h2a, h2b⟩ := h2
  refine ⟨?_, fun ha => h2b (h1b ha)⟩
  rcases h2a with h2a | h2a
  · rcases h1a with h1a | h1a
    · exact Or.inl (h2a.trans h1a)
    · exact Or.inr (h2a.trans h1a)
  · exact Or.inr h2a

lemma yesMono_setYesIf (b : Bool) (s : String) : YesMono s (setYesIf b s) := by
  cases b
  · exact yesMono_refl s
  · exact ⟨Or.inr rfl, fun _ => rfl⟩

lemma flagsMono_refl (p : Place) : FlagsMono p p :=
  ⟨yesMono_refl _, yesMono_refl _, yesMono_refl _, yesMono_refl _,
   yesMono_refl _, yesMono_refl _, yesMono_refl _, yesMono_refl _⟩

lemma flagsMono_trans {p q r : Place} (h1 : FlagsMono p q) (h2 : FlagsMono q r) :
    FlagsMono p r := by
  obtain ⟨a1, b1, c1, d1, e1, f1, g1, i1⟩ := h1
  obtain ⟨a2, b2, c2, d2, e2, f2, g2, i2⟩ := h2
  exact ⟨yesMono_trans a1 a2, yesMono_trans b1 b2, yesMono_trans c1 c2,
    yesMono_trans d1 d2, yesMono_trans e1 e2, yesMono_trans f1 f2,
    yesMono_trans g1 g2, yesMono_trans i1 i2⟩

lemma updateServiceFlags_mono (p : Place) (check : String) :
    FlagsMono p (updateServiceFlags p check) :=
  ⟨yesMono_setYesIf _ _, yesMono_setYesIf _ _, yesMono_setYesIf _ _,
   yesMono_setYesIf _ _, yesMono_setYesIf _ _, yesMono_setYesIf _ _,
   yesMono_setYesIf _ _, yesMono_setYesIf _ _⟩

lemma processSnippet_mono (p : Place) (snippet : String) :
    FlagsMono p (processSnippet p snippet) := by
  unfold processSnippet
  dsimp only
  split_ifs with h1 h2
  · exact updateServiceFlags_mono p _
  · exact flagsMono_refl p
  · exact flagsMono_refl p

lemma serviceFlagScan_mono :
    ∀ (snippets : List String) (p : Place), FlagsMono p (serviceFlagScan p snippets) := by
  intro snippets
  induction snippets with
  | nil => intro p; exact flagsMono_refl p
  | cons s rest ih =>
    intro p
    exact flagsMono_trans (processSnippet_mono p s) (ih (processSnippet p s))

/-- C9.  Across one extraction pass's service-flag scan each tri-state flag
(store shopping, pickup, delivery, dine-in, takeaway, reservations,
wheelchair access, verification) is only ever assigned the literal `"Yes"`
— its final value is either its incoming value or `"Yes"`, so the scan
never writes `"No"` or `"Unknown"` — and once a flag is `"Yes"` it stays
`"Yes"`; instantiated at the freshly created record, a flag the scan does
not set keeps its creation-time default. -/
theorem claim_C9 (p : Place) (snippets : List String) :
    FlagsMono p (serviceFlagScan p snippets) :=
  serviceFlagScan_mono snippets p

/-- C9 witness: a record whose shopping flag is already `"Yes"` keeps it
through a scan over an arbitrary snippet. -/
theorem claim_C9_witness :
    (serviceFlagScan { store_shopping := "Yes" } ["note"]).store_shopping = "Yes" :=
  (claim_C9 { store_shopping := "Yes" } ["note"]).1.2 rfl
